import Mathlib

/- Verification of the GpuScan device kernel `src/cuda_gpuscan.h` (PG-Strom
   devel snapshot).

   The CUDA kernel is shallowly embedded: one cooperating thread group
   executes as a single sequential step (the barrier-synchronised collective
   scan becomes a whole-group computation, which is exactly the contract the
   barriers enforce), the groups of one invocation run in some sequential
   order, and the `atomicAdd`-based reservations become ordinary state
   threading.  `cl_uint` / `cl_int` counters are modelled as unbounded
   naturals / integers; all quantities involved in the claims stay far below
   2^32, so machine overflow is immaterial here.

   Identifier slips of the work-in-progress source (`tuplen` vs `tuple_len`,
   `prev_nitems` vs `nitems_prev`, `prev_usage` vs `usage_prev`, `tupsrc` vs
   `tupitem_src`, `kds` vs `kds_src`) are unified to the obviously intended
   single variable.  Helpers living in `cuda_common.h` of the same repository
   (alignment macros, `kern_tupitem`, error codes, `arithmetic_stairlike_add`,
   `kern_writeback_error_status`) are modelled after their documented
   contracts; each such definition says so in its comment. -/

namespace GpuScan

/-- Modelled from the spec: PostgreSQL / PG-Strom `MAXALIGN` macro
(`cuda_common.h`, not under `src/`): round up to an 8-byte boundary. -/
def MAXALIGN (n : ℕ) : ℕ := 8 * ((n + 7) / 8)

/-- Modelled from the spec: PG-Strom `STROMALIGN` macro (`cuda_common.h`,
not under `src/`): round up to an 8-byte boundary. -/
def STROMALIGN (n : ℕ) : ℕ := 8 * ((n + 7) / 8)

/-- Modelled from the spec: `StromError_Success` (error codes live in
`cuda_common.h`, not under `src/`); the success code is zero. -/
def StromError_Success : ℕ := 0

/-- Modelled from the spec: `StromError_DataStoreNoSpace` code; any fixed
nonzero value works for the claims, we use 3. -/
def StromError_DataStoreNoSpace : ℕ := 3

/-- Modelled from the spec: `STROM_SET_ERROR` keeps the first error — it
stores `code` only when the context still holds `StromError_Success`. -/
def STROM_SET_ERROR (e code : ℕ) : ℕ :=
  if e = StromError_Success then code else e

/-- Modelled from the spec (§4.1): `arithmetic_stairlike_add` returns each
thread's exclusive prefix sum over the group.  Thread `i` of a group whose
per-thread values are `vals` receives the sum of the values before it. -/
def stairlike_offset (vals : List ℕ) (i : ℕ) : ℕ := (vals.take i).sum

/-- Modelled from the spec (§4.1): the group total returned by
`arithmetic_stairlike_add` through its second argument. -/
def stairlike_total (vals : List ℕ) : ℕ := vals.sum

/-! ## Result buffer and `gpuscan_writeback_results`

`kern_resultbuf` follows the diagram at `cuda_gpuscan.h:44-59`: header fields
`nrels`, `nitems`, `nrooms`, `errcode` and the `results` index array.  The
array is modelled as a total map `ℕ → ℤ` because the device code indexes it
without any bound check; the buffer is zero-initialised by the caller. -/

structure kern_resultbuf where
  nrels : ℕ
  nitems : ℕ
  nrooms : ℕ
  errcode : ℕ
  results : ℕ → ℤ

/-- A caller-initialised result buffer (`cuda_gpuscan.h:61`: "assumes all the
fields shall be initialized to zero"). -/
def wb_fresh (nrooms : ℕ) : kern_resultbuf :=
  { nrels := 1, nitems := 0, nrooms := nrooms, errcode := 0, results := fun _ => 0 }

/-- The binary value fed into the stairlike add at `cuda_gpuscan.h:114`:
1 when this thread wants to return a status (`result != 0`). -/
def wb_binary (r : ℤ) : ℕ := if r ≠ 0 then 1 else 0

/-- The signed row index written back (`cuda_gpuscan.h:125-128`):
`result_index = get_global_id() + 1`; positive on pass (`result > 0`),
negative on re-check (`result < 0`), nothing on reject. -/
def wb_value (gid : ℕ) (r : ℤ) : ℤ :=
  if 0 < r then (gid : ℤ) + 1 else if r < 0 then -((gid : ℤ) + 1) else 0

/-- Number of threads of a group that record a status: the group total of the
binaries, i.e. the `nitems` local of `gpuscan_writeback_results`. -/
def wb_count (pred : ℕ → ℤ) (g : List ℕ) : ℕ :=
  stairlike_total (g.map fun gid => wb_binary (pred gid))

/-- The (position, value) writes of one group of `gpuscan_writeback_results`
(`cuda_gpuscan.h:125-128`): thread `i` holding global row `g[i]` with nonzero
result writes its signed index at `base + offset`, where `offset` is its
exclusive prefix count of recording threads. -/
def wbWrites (pred : ℕ → ℤ) (g : List ℕ) (base : ℕ) : List (ℕ × ℤ) :=
  (List.range g.length).filterMap fun i =>
    if pred (g.getD i 0) ≠ 0 then
      some (base + stairlike_offset (g.map fun x => wb_binary (pred x)) i,
            wb_value (g.getD i 0) (pred (g.getD i 0)))
    else none

/-- Apply a list of single-cell writes to the index array, in order. -/
def applyUpdates (res : ℕ → ℤ) : List (ℕ × ℤ) → (ℕ → ℤ)
  | [] => res
  | (p, v) :: ws => applyUpdates (Function.update res p v) ws

theorem applyUpdates_cons (res : ℕ → ℤ) (p : ℕ) (v : ℤ) (ws : List (ℕ × ℤ)) :
    applyUpdates res ((p, v) :: ws) = applyUpdates (Function.update res p v) ws := rfl

/-- `gpuscan_writeback_results` (`cuda_gpuscan.h:97-129`) for one cooperating
group: the group leader atomically adds the group count onto
`kresults->nitems` reserving `base` (the unconditional `atomicAdd` at line
116-117), and each recording thread writes its signed row index at
`base + offset`.  No capacity check is performed. -/
def gpuscan_writeback_results (pred : ℕ → ℤ) (g : List ℕ)
    (kr : kern_resultbuf) : kern_resultbuf :=
  { kr with
    nitems := kr.nitems + wb_count pred g,
    results := applyUpdates kr.results (wbWrites pred g kr.nitems) }

/-- One invocation of the result accumulator: the groups of the grid execute
in some order; `order` lists the groups (each a list of global thread ids) in
their execution order. -/
def wb_runAll (pred : ℕ → ℤ) : List (List ℕ) → kern_resultbuf → kern_resultbuf
  | [], kr => kr
  | g :: gs, kr => wb_runAll pred gs (gpuscan_writeback_results pred g kr)

/-- The set of record values present in the index array; the buffer is
zero-initialised, so the records are exactly the nonzero entries. -/
def valSet (res : ℕ → ℤ) : Set ℤ := {z | z ≠ 0 ∧ ∃ n, res n = z}

/-- The signed indices a group's recording threads produce. -/
def signedSet (pred : ℕ → ℤ) (g : List ℕ) : Set ℤ :=
  {z | ∃ gid ∈ g, pred gid ≠ 0 ∧ z = wb_value gid (pred gid)}

/-! ### Basic facts about the accumulator -/

theorem wb_count_nil (pred : ℕ → ℤ) : wb_count pred [] = 0 := rfl

theorem wb_count_cons (pred : ℕ → ℤ) (a : ℕ) (g : List ℕ) :
    wb_count pred (a :: g) = wb_binary (pred a) + wb_count pred g := by
  simp [wb_count, stairlike_total]

theorem wb_value_ne_zero (gid : ℕ) (r : ℤ) (h : r ≠ 0) : wb_value gid r ≠ 0 := by
  unfold wb_value
  split
  · omega
  · split
    · omega
    · omega

theorem signedSet_nil (pred : ℕ → ℤ) : signedSet pred [] = ∅ := by
  simp [signedSet]

theorem signedSet_cons (pred : ℕ → ℤ) (a : ℕ) (g : List ℕ) :
    signedSet pred (a :: g) =
      (if pred a ≠ 0 then {wb_value a (pred a)} else ∅) ∪ signedSet pred g := by
  ext z
  simp only [signedSet, Set.mem_setOf_eq, List.mem_cons, Set.mem_union]
  constructor
  · rintro ⟨gid, hg | hg, hp, hz⟩
    · subst hg
      exact Or.inl (by simp [hp, hz])
    · exact Or.inr ⟨gid, hg, hp, hz⟩
  · rintro (hz | ⟨gid, hg, hp, hz⟩)
    · by_cases h : pred a = 0
      · simp [h] at hz
      · simp only [h, ne_eq, not_false_eq_true, if_true, Set.mem_singleton_iff] at hz
        exact ⟨a, Or.inl rfl, h, hz⟩
    · exact ⟨gid, Or.inr hg, hp, hz⟩

theorem wbWrites_cons (pred : ℕ → ℤ) (a : ℕ) (g : List ℕ) (base : ℕ) :
    wbWrites pred (a :: g) base =
      (if pred a ≠ 0 then [(base, wb_value a (pred a))] else []) ++
        wbWrites pred g (base + wb_binary (pred a)) := by
  unfold wbWrites
  rw [List.length_cons, List.range_succ_eq_map, List.filterMap_cons, List.filterMap_map]
  have h1 : ((fun i =>
        if pred ((a :: g).getD i 0) ≠ 0 then
          some (base + stairlike_offset ((a :: g).map fun x => wb_binary (pred x)) i,
                wb_value ((a :: g).getD i 0) (pred ((a :: g).getD i 0)))
        else none) ∘ Nat.succ) =
      fun i =>
        if pred (g.getD i 0) ≠ 0 then
          some ((base + wb_binary (pred a)) +
                  stairlike_offset (g.map fun x => wb_binary (pred x)) i,
                wb_value (g.getD i 0) (pred (g.getD i 0)))
        else none := by
    funext i
    simp [stairlike_offset, Nat.add_assoc]
  rw [h1]
  by_cases h : pred a = 0 <;> simp [h, stairlike_offset]

theorem valSet_update (res : ℕ → ℤ) (p : ℕ) (v : ℤ) (hres : res p = 0) (hv : v ≠ 0) :
    valSet (Function.update res p v) = valSet res ∪ {v} := by
  ext z
  constructor
  · rintro ⟨hz, n, hn⟩
    by_cases hnp : n = p
    · subst hnp
      rw [Function.update_same] at hn
      exact Or.inr (by simpa using hn.symm)
    · rw [Function.update_noteq hnp] at hn
      exact Or.inl ⟨hz, n, hn⟩
  · rintro (⟨hz, n, hn⟩ | hz)
    · refine ⟨hz, n, ?_⟩
      have hnp : n ≠ p := by
        rintro rfl
        exact hz (hn ▸ hres)
      rw [Function.update_noteq hnp, hn]
    · have hz' : z = v := by simpa using hz
      exact ⟨hz' ▸ hv, p, by simp [hz']⟩

/-- One group of the accumulator, run from a state whose index array is zero
from `base` on: positions below `base` are untouched, positions from
`base + count` on remain zero, and exactly the group's signed indices are
added to the record set. -/
theorem wb_group_spec (pred : ℕ → ℤ) (g : List ℕ) :
    ∀ (base : ℕ) (res : ℕ → ℤ), (∀ n, base ≤ n → res n = 0) →
    (∀ n, base + wb_count pred g ≤ n → applyUpdates res (wbWrites pred g base) n = 0) ∧
    (∀ n, n < base → applyUpdates res (wbWrites pred g base) n = res n) ∧
    valSet (applyUpdates res (wbWrites pred g base)) = valSet res ∪ signedSet pred g := by
  induction g with
  | nil =>
    intro base res hz
    refine ⟨?_, ?_, ?_⟩
    · intro n hn
      exact hz n (by simpa [wb_count_nil] using hn)
    · intro n _
      rfl
    · simp [wbWrites, applyUpdates, signedSet_nil]
  | cons a g ih =>
    intro base res hz
    rw [wbWrites_cons, wb_count_cons, signedSet_cons]
    by_cases h : pred a = 0
    · have hb : wb_binary (pred a) = 0 := by simp [wb_binary, h]
      simp only [h, ne_eq, not_true_eq_false, if_false, List.nil_append, hb,
        Nat.add_zero, Nat.zero_add, Set.empty_union]
      have ihs := ih base res hz
      exact ⟨fun n hn => ihs.1 n (by omega), ihs.2.1, ihs.2.2⟩
    · have hb : wb_binary (pred a) = 1 := by simp [wb_binary, h]
      simp only [h, ne_eq, not_false_eq_true, if_true, List.cons_append, List.nil_append, hb,
        applyUpdates_cons]
      have hz1 : ∀ n, base + 1 ≤ n → Function.update res base (wb_value a (pred a)) n = 0 := by
        intro n hn
        rw [Function.update_noteq (by omega)]
        exact hz n (by omega)
      have ihs := ih (base + 1) (Function.update res base (wb_value a (pred a))) hz1
      refine ⟨?_, ?_, ?_⟩
      · intro n hn
        exact ihs.1 n (by omega)
      · intro n hn
        rw [ihs.2.1 n (by omega), Function.update_noteq (by omega)]
      · rw [ihs.2.2, valSet_update res base _ (hz base le_rfl) (wb_value_ne_zero a _ h),
          Set.union_assoc]

/-- The full accumulator run: `nitems` grows by the total count, the tail of
the index array past `nitems` stays zero, and the record set accumulates each
group's signed indices.  `nrooms` is never consulted nor modified. -/
theorem wb_runAll_spec (pred : ℕ → ℤ) (order : List (List ℕ)) :
    ∀ kr : kern_resultbuf, (∀ n, kr.nitems ≤ n → kr.results n = 0) →
    (wb_runAll pred order kr).nitems = kr.nitems + (order.map (wb_count pred)).sum ∧
    (∀ n, (wb_runAll pred order kr).nitems ≤ n → (wb_runAll pred order kr).results n = 0) ∧
    valSet (wb_runAll pred order kr).results
      = valSet kr.results ∪ {z | ∃ g ∈ order, z ∈ signedSet pred g} ∧
    (wb_runAll pred order kr).nrooms = kr.nrooms := by
  induction order with
  | nil =>
    intro kr hz
    refine ⟨by simp [wb_runAll], by simpa [wb_runAll] using hz, ?_, rfl⟩
    simp [wb_runAll]
  | cons g gs ih =>
    intro kr hz
    have hgrp := wb_group_spec pred g kr.nitems kr.results hz
    have hstep : (gpuscan_writeback_results pred g kr).nitems = kr.nitems + wb_count pred g :=
      rfl
    have ihs := ih (gpuscan_writeback_results pred g kr)
      (by
        intro n hn
        exact hgrp.1 n (by rw [hstep] at hn; omega))
    rw [wb_runAll]
    refine ⟨?_, ihs.2.1, ?_, ihs.2.2.2⟩
    · rw [ihs.1, hstep, List.map_cons, List.sum_cons]
      omega
    · rw [ihs.2.2.1]
      have hres : (gpuscan_writeback_results pred g kr).results
          = applyUpdates kr.results (wbWrites pred g kr.nitems) := rfl
      rw [hres, hgrp.2.2, Set.union_assoc]
      congr 1
      ext z
      simp only [Set.mem_union, Set.mem_setOf_eq, List.mem_cons]
      constructor
      · rintro (hz | ⟨g', hg', hz⟩)
        · exact ⟨g, Or.inl rfl, hz⟩
        · exact ⟨g', Or.inr hg', hz⟩
      · rintro ⟨g', hg' | hg', hz⟩
        · exact Or.inl (hg' ▸ hz)
        · exact Or.inr ⟨g', hg', hz⟩

theorem valSet_zero : valSet (fun _ => (0 : ℤ)) = ∅ := by
  ext z
  simp only [valSet, Set.mem_setOf_eq, Set.mem_empty_iff_false, iff_false, not_and]
  rintro hz ⟨n, hn⟩
  exact hz hn.symm

theorem wb_value_of_pos (gid : ℕ) (r : ℤ) (h : 0 < r) : wb_value gid r = (gid : ℤ) + 1 := by
  simp [wb_value, h]

theorem wb_value_of_neg (gid : ℕ) (r : ℤ) (h : r < 0) : wb_value gid r = -((gid : ℤ) + 1) := by
  have h1 : ¬0 < r := by omega
  simp [wb_value, h1, h]

theorem wb_value_pos_elim (gid i : ℕ) (r : ℤ) (hp : r ≠ 0)
    (hz : ((i : ℤ) + 1) = wb_value gid r) : gid = i ∧ 0 < r := by
  unfold wb_value at hz
  split at hz
  next hpos => exact ⟨by omega, hpos⟩
  next hpos =>
    split at hz
    next hneg => omega
    next hneg => omega

theorem wb_value_neg_elim (gid i : ℕ) (r : ℤ) (hp : r ≠ 0)
    (hz : (-((i : ℤ) + 1)) = wb_value gid r) : gid = i ∧ r < 0 := by
  unfold wb_value at hz
  split at hz
  next hpos => omega
  next hpos =>
    split at hz
    next hneg => exact ⟨by omega, hneg⟩
    next hneg => omega

/-- C2: after the Result Accumulator has run for all candidate rows (the
groups, in execution order, jointly hold rows `0..N-1` exactly once), the
nonzero entries of the zero-initialised result buffer are exactly: `i + 1`
for every pass row `i` (`pred i > 0`), `-(i + 1)` for every recheck row
(`pred i < 0`), and nothing for rejected rows; every record corresponds to
some pass/recheck row. -/
theorem C2_recorded_indices (pred : ℕ → ℤ) (order : List (List ℕ)) (N nrooms : ℕ)
    (hcover : order.flatten.Perm (List.range N)) :
    (∀ i, i < N →
        (0 < pred i ↔
          ((i : ℤ) + 1) ∈ valSet (wb_runAll pred order (wb_fresh nrooms)).results) ∧
        (pred i < 0 ↔
          (-((i : ℤ) + 1)) ∈ valSet (wb_runAll pred order (wb_fresh nrooms)).results)) ∧
    (∀ z ∈ valSet (wb_runAll pred order (wb_fresh nrooms)).results,
        ∃ i, i < N ∧ pred i ≠ 0 ∧ z = wb_value i (pred i)) := by
  have hspec := wb_runAll_spec pred order (wb_fresh nrooms) (fun n _ => rfl)
  have hval : valSet (wb_runAll pred order (wb_fresh nrooms)).results
      = {z | ∃ gid ∈ order.flatten, pred gid ≠ 0 ∧ z = wb_value gid (pred gid)} := by
    rw [hspec.2.2.1]
    have hfresh : valSet (wb_fresh nrooms).results = ∅ := valSet_zero
    rw [hfresh, Set.empty_union]
    ext z
    simp only [Set.mem_setOf_eq, signedSet, List.mem_flatten]
    constructor
    · rintro ⟨g, hg, gid, hgid, hp, hz⟩
      exact ⟨gid, ⟨g, hg, hgid⟩, hp, hz⟩
    · rintro ⟨gid, ⟨g, hg, hgid⟩, hp, hz⟩
      exact ⟨g, hg, gid, hgid, hp, hz⟩
  have hmem : ∀ gid, gid ∈ order.flatten ↔ gid < N := by
    intro gid
    rw [hcover.mem_iff, List.mem_range]
  rw [hval]
  refine ⟨fun i hi => ⟨⟨fun hp => ?_, fun hin => ?_⟩, ⟨fun hp => ?_, fun hin => ?_⟩⟩,
    fun z hz => ?_⟩
  · exact ⟨i, (hmem i).mpr hi, by omega, (wb_value_of_pos i _ hp).symm⟩
  · obtain ⟨gid, _, hp, hz⟩ := hin
    obtain ⟨rfl, hr⟩ := wb_value_pos_elim gid i (pred gid) hp hz
    exact hr
  · exact ⟨i, (hmem i).mpr hi, by omega, (wb_value_of_neg i _ hp).symm⟩
  · obtain ⟨gid, _, hp, hz⟩ := hin
    obtain ⟨rfl, hr⟩ := wb_value_neg_elim gid i (pred gid) hp hz
    exact hr
  · obtain ⟨gid, hgid, hp, hzv⟩ := hz
    exact ⟨gid, (hmem gid).mp hgid, hp, hzv⟩

/-- Witness for C2 on a concrete input: three rows grouped as `[[1,0],[2]]`
with row 0 passing, row 1 flagged for recheck and row 2 rejected. -/
theorem C2_recorded_indices_witness :
    ([[1, 0], [2]] : List (List ℕ)).flatten.Perm (List.range 3) ∧
    ((∀ i, i < 3 →
        (0 < (fun j : ℕ => if j = 0 then (1 : ℤ) else if j = 1 then -1 else 0) i ↔
          ((i : ℤ) + 1) ∈ valSet (wb_runAll
            (fun j : ℕ => if j = 0 then (1 : ℤ) else if j = 1 then -1 else 0)
            [[1, 0], [2]] (wb_fresh 8)).results) ∧
        ((fun j : ℕ => if j = 0 then (1 : ℤ) else if j = 1 then -1 else 0) i < 0 ↔
          (-((i : ℤ) + 1)) ∈ valSet (wb_runAll
            (fun j : ℕ => if j = 0 then (1 : ℤ) else if j = 1 then -1 else 0)
            [[1, 0], [2]] (wb_fresh 8)).results)) ∧
     (∀ z ∈ valSet (wb_runAll
            (fun j : ℕ => if j = 0 then (1 : ℤ) else if j = 1 then -1 else 0)
            [[1, 0], [2]] (wb_fresh 8)).results,
        ∃ i, i < 3 ∧
          (fun j : ℕ => if j = 0 then (1 : ℤ) else if j = 1 then -1 else 0) i ≠ 0 ∧
          z = wb_value i ((fun j : ℕ => if j = 0 then (1 : ℤ) else if j = 1 then -1 else 0) i))) :=
  ⟨by decide,
   C2_recorded_indices (fun j : ℕ => if j = 0 then (1 : ℤ) else if j = 1 then -1 else 0)
     [[1, 0], [2]] 3 8 (by decide)⟩

/-- C9: re-running identical input with the identical grouping strategy in a
different inter-group execution order yields the same final `nitems` and the
same set of recorded indices. -/
theorem C9_determinism (pred : ℕ → ℤ) (nrooms : ℕ) (order1 order2 : List (List ℕ))
    (hperm : order1.Perm order2) :
    (wb_runAll pred order1 (wb_fresh nrooms)).nitems
      = (wb_runAll pred order2 (wb_fresh nrooms)).nitems ∧
    valSet (wb_runAll pred order1 (wb_fresh nrooms)).results
      = valSet (wb_runAll pred order2 (wb_fresh nrooms)).results := by
  have h1 := wb_runAll_spec pred order1 (wb_fresh nrooms) (fun n _ => rfl)
  have h2 := wb_runAll_spec pred order2 (wb_fresh nrooms) (fun n _ => rfl)
  constructor
  · rw [h1.1, h2.1, (hperm.map (wb_count pred)).sum_eq]
  · rw [h1.2.2.1, h2.2.2.1]
    congr 1
    ext z
    simp only [Set.mem_setOf_eq]
    constructor
    · rintro ⟨g, hg, hz⟩
      exact ⟨g, hperm.mem_iff.mp hg, hz⟩
    · rintro ⟨g, hg, hz⟩
      exact ⟨g, hperm.mem_iff.mpr hg, hz⟩

/-- Witness for C9 on a concrete input: two groups executed in the two
possible orders. -/
theorem C9_determinism_witness :
    ([[0], [1]] : List (List ℕ)).Perm [[1], [0]] ∧
    ((wb_runAll (fun _ => (1 : ℤ)) [[0], [1]] (wb_fresh 4)).nitems
       = (wb_runAll (fun _ => (1 : ℤ)) [[1], [0]] (wb_fresh 4)).nitems ∧
     valSet (wb_runAll (fun _ => (1 : ℤ)) [[0], [1]] (wb_fresh 4)).results
       = valSet (wb_runAll (fun _ => (1 : ℤ)) [[1], [0]] (wb_fresh 4)).results) :=
  ⟨by decide, C9_determinism (fun _ => (1 : ℤ)) 4 [[0], [1]] [[1], [0]] (by decide)⟩

/-- C10: `gpuscan_writeback_results` performs no capacity check: with
`nrooms = 1` and two passing rows in one group, the reserved block overruns
the declared `rindex` array — a nonzero record lands at index `1 ≥ nrooms`
and the final `nitems = 2` exceeds `nrooms = 1`. -/
theorem C10_unchecked_write :
    (gpuscan_writeback_results (fun _ => 1) [0, 1] (wb_fresh 1)).nrooms = 1 ∧
    (gpuscan_writeback_results (fun _ => 1) [0, 1] (wb_fresh 1)).nitems = 2 ∧
    (gpuscan_writeback_results (fun _ => 1) [0, 1] (wb_fresh 1)).results 1 = 2 ∧
    ¬((gpuscan_writeback_results (fun _ => 1) [0, 1] (wb_fresh 1)).nitems
        ≤ (gpuscan_writeback_results (fun _ => 1) [0, 1] (wb_fresh 1)).nrooms) := by
  refine ⟨rfl, rfl, by decide, by decide⟩

/-! ## Row-format projector

`gpuscan_projection_row` (`cuda_gpuscan.h:148-256`) in verbatim-copy mode
(`GPUSCAN_DEVICE_PROJECTION` undefined, the `#else` branches at lines 188-190
and 250-253).  A source tuple item (`kern_tupitem`, declared in
`cuda_common.h`) is a fixed header of `offsetof(kern_tupitem, htup)` bytes
(`t_len` and `t_self`) followed by `t_len` bytes of heap tuple; `bytes` is
its raw byte image starting at the item's address. -/

/-- Modelled from the spec: `offsetof(kern_tupitem, htup)` — a `cl_ushort
t_len` plus a 6-byte `ItemPointerData t_self` put `htup` at byte 8. -/
def kern_tupitem_htup_offset : ℕ := 8

structure kern_tupitem where
  t_len : ℕ
  bytes : List ℕ
deriving DecidableEq

/-- `tuple_len` of step.1 (`cuda_gpuscan.h:189`): the source tuple's `t_len`
for a live row, 0 for a thread holding no row (`tupitem_src == NULL`). -/
def tuple_len : Option kern_tupitem → ℕ
  | some tup => tup.t_len
  | none => 0

/-- The binary value each thread feeds into the item-count stairlike add
(`cuda_gpuscan.h:196` and `:279`): `tupitem_src != NULL ? 1 : 0`. -/
def proj_binary (t : Option kern_tupitem) : ℕ := if t.isSome then 1 else 0

/-- `required` of step.3 (`cuda_gpuscan.h:216`): computed unconditionally for
every thread, including threads holding no row (for which `tuple_len = 0`,
so `required = MAXALIGN(offsetof(kern_tupitem, htup))`, not 0). -/
def row_required (t : Option kern_tupitem) : ℕ :=
  MAXALIGN (kern_tupitem_htup_offset + tuple_len t)

/-- The row-format destination store (`kern_data_store` in `KDS_FORMAT_ROW`):
`head_sz` is `KERN_DATA_STORE_HEAD_LENGTH(kds_dst)`, `arena` the byte content
of the whole store, indexed from its base address.  The index array of
`cl_uint` tuple offsets starts at `head_sz` (`KERN_DATA_STORE_BODY`), tuple
bytes grow down from `length`. -/
structure RowDst where
  head_sz : ℕ
  length : ℕ
  nrooms : ℕ
  nitems : ℕ
  usage : ℕ
  arena : ℕ → ℕ

/-- A caller-initialised (zeroed) row destination. -/
def freshRow (head_sz length nrooms : ℕ) : RowDst :=
  { head_sz := head_sz, length := length, nrooms := nrooms,
    nitems := 0, usage := 0, arena := fun _ => 0 }

/-- One committed row of the row projector: the index-array slot
`item_index`, the byte offset `htup_offset` of the tuple, and the source
tuple copied there. -/
structure RowWrite where
  idxPos : ℕ
  tupOff : ℕ
  tup : kern_tupitem
deriving DecidableEq

/-- Bytes the memcpy at `cuda_gpuscan.h:251-252` moves:
`offsetof(kern_tupitem, htup) + tuple_len`. -/
def rwLen (w : RowWrite) : ℕ := kern_tupitem_htup_offset + w.tup.t_len

/-- The writes of the committing threads of one group (`cuda_gpuscan.h:
240-255`): thread `i` holding a row writes its tuple bytes at
`htup_offset = length - (usage_prev + offset + required)` and stores that
offset into index-array slot `item_index = nitems_prev + offset`. -/
def rowWrites (g : List (Option kern_tupitem)) (nitems_prev usage_prev length : ℕ) :
    List RowWrite :=
  (List.range g.length).filterMap fun i =>
    match g.getD i none with
    | none => none
    | some tup =>
        some { idxPos := nitems_prev + stairlike_offset (g.map proj_binary) i,
               tupOff := length - (usage_prev + stairlike_offset (g.map row_required) i +
                           row_required (some tup)),
               tup := tup }

/-- The memcpy of `cuda_gpuscan.h:251-252`: copy
`offsetof(kern_tupitem, htup) + tuple_len` bytes of the source item to the
destination offset. -/
def writeTuple (arena : ℕ → ℕ) (off : ℕ) (tup : kern_tupitem) : ℕ → ℕ :=
  fun a =>
    if off ≤ a ∧ a < off + (kern_tupitem_htup_offset + tup.t_len) then
      tup.bytes.getD (a - off) 0
    else arena a

/-- The index-array store `tupitem_idx[item_index] = htup_offset`
(`cuda_gpuscan.h:254`): four bytes of the `cl_uint` value at byte position
`head_sz + 4 * item_index` (little-endian). -/
def writeIndexEntry (arena : ℕ → ℕ) (head_sz idx off : ℕ) : ℕ → ℕ :=
  fun a =>
    if head_sz + 4 * idx ≤ a ∧ a < head_sz + 4 * idx + 4 then
      (off / 256 ^ (a - (head_sz + 4 * idx))) % 256
    else arena a

/-- One committing thread's two stores, in program order (memcpy, then the
index-array entry). -/
def applyRowWrite (head_sz : ℕ) (arena : ℕ → ℕ) (w : RowWrite) : ℕ → ℕ :=
  writeIndexEntry (writeTuple arena w.tupOff w.tup) head_sz w.idxPos w.tupOff

def applyRowWrites (head_sz : ℕ) (arena : ℕ → ℕ) (ws : List RowWrite) : ℕ → ℕ :=
  ws.foldl (applyRowWrite head_sz) arena

/-- Per-group outcome: the error `STROM_SET_ERROR` raised for the group's
threads (0 when none) and the writes the group committed. -/
structure RowGroupOut where
  errcode : ℕ
  writes : List RowWrite
deriving DecidableEq

/-- `gpuscan_projection_row` (`cuda_gpuscan.h:148-256`) for one cooperating
group, in verbatim-copy mode.  Step 2 reserves index slots (atomic add of the
group count onto `nitems` before the capacity check, early return on
overflow); step 3 reserves tuple bytes from the high end of the arena (again
add-then-check, early return); step 4 copies each live row's tuple and stores
its offset in the index array. -/
def gpuscan_projection_row (g : List (Option kern_tupitem)) (s : RowDst) :
    RowDst × RowGroupOut :=
  let count1 := stairlike_total (g.map proj_binary)
  let nitems_prev := if 0 < count1 then s.nitems else 0
  let nitems2 := s.nitems + count1
  if s.nrooms < nitems_prev + count1 then
    ({ s with nitems := nitems2 }, ⟨StromError_DataStoreNoSpace, []⟩)
  else
    let count2 := stairlike_total (g.map row_required)
    let usage_prev := if 0 < count2 then s.usage else 0
    let usage2 := s.usage + count2
    if s.length < s.head_sz + STROMALIGN (4 * nitems2) + usage_prev + count2 then
      ({ s with nitems := nitems2, usage := usage2 }, ⟨StromError_DataStoreNoSpace, []⟩)
    else
      let ws := rowWrites g nitems_prev usage_prev s.length
      ({ s with nitems := nitems2, usage := usage2,
                arena := applyRowWrites s.head_sz s.arena ws },
       ⟨StromError_Success, ws⟩)

/-- The invocation's groups run in some order over the shared destination. -/
def runRow : List (List (Option kern_tupitem)) → RowDst → RowDst × List RowGroupOut
  | [], s => (s, [])
  | g :: gs, s =>
    let step := gpuscan_projection_row g s
    let rest := runRow gs step.1
    (rest.1, step.2 :: rest.2)

theorem runRow_cons (g : List (Option kern_tupitem)) (gs : List (List (Option kern_tupitem)))
    (s : RowDst) :
    runRow (g :: gs) s =
      ((runRow gs (gpuscan_projection_row g s).1).1,
       (gpuscan_projection_row g s).2 :: (runRow gs (gpuscan_projection_row g s).1).2) := rfl

/-! ## Slot-format projector

`gpuscan_projection_slot` (`cuda_gpuscan.h:258-317`): single-phase
reservation against `nitems`/`nrooms`; the per-slot column decode
(`deform_kern_heaptuple`, external to this core) is recorded as the list of
reserved `dst_index` values. -/

structure SlotDst where
  nrooms : ℕ
  nitems : ℕ
  ncols : ℕ

def freshSlot (nrooms ncols : ℕ) : SlotDst :=
  { nrooms := nrooms, nitems := 0, ncols := ncols }

structure SlotGroupOut where
  errcode : ℕ
  slots : List ℕ
deriving DecidableEq

/-- The reserved `dst_index = base + offset` of each live thread
(`cuda_gpuscan.h:298`). -/
def slotWrites (g : List (Option kern_tupitem)) (base : ℕ) : List ℕ :=
  (List.range g.length).filterMap fun i =>
    match g.getD i none with
    | none => none
    | some _ => some (base + stairlike_offset (g.map proj_binary) i)

/-- `gpuscan_projection_slot` (`cuda_gpuscan.h:258-317`) for one group:
stairlike count, leader's atomic add (guarded by `count > 0`), then the
capacity check `base + count > nrooms` deciding between the no-space error
and the per-thread slot fill. -/
def gpuscan_projection_slot (g : List (Option kern_tupitem)) (s : SlotDst) :
    SlotDst × SlotGroupOut :=
  let count := stairlike_total (g.map proj_binary)
  let base := if 0 < count then s.nitems else 0
  if s.nrooms < base + count then
    ({ s with nitems := s.nitems + count }, ⟨StromError_DataStoreNoSpace, []⟩)
  else
    ({ s with nitems := s.nitems + count }, ⟨StromError_Success, slotWrites g base⟩)

def runSlot : List (List (Option kern_tupitem)) → SlotDst → SlotDst × List SlotGroupOut
  | [], s => (s, [])
  | g :: gs, s =>
    let step := gpuscan_projection_slot g s
    let rest := runSlot gs step.1
    (rest.1, step.2 :: rest.2)

theorem runSlot_cons (g : List (Option kern_tupitem)) (gs : List (List (Option kern_tupitem)))
    (s : SlotDst) :
    runSlot (g :: gs) s =
      ((runSlot gs (gpuscan_projection_slot g s).1).1,
       (gpuscan_projection_slot g s).2 :: (runSlot gs (gpuscan_projection_slot g s).1).2) := rfl

/-! ### Scan and write-list decompositions -/

theorem stairlike_offset_zero (vals : List ℕ) : stairlike_offset vals 0 = 0 := rfl

theorem stairlike_offset_cons (v : ℕ) (vals : List ℕ) (i : ℕ) :
    stairlike_offset (v :: vals) (i + 1) = v + stairlike_offset vals i := by
  simp [stairlike_offset]

theorem stairlike_total_cons (v : ℕ) (vals : List ℕ) :
    stairlike_total (v :: vals) = v + stairlike_total vals := by
  simp [stairlike_total]

theorem rowWrites_nil (n u L : ℕ) : rowWrites [] n u L = [] := rfl

theorem rowWrites_cons (t : Option kern_tupitem) (g : List (Option kern_tupitem))
    (n u L : ℕ) :
    rowWrites (t :: g) n u L =
      (match t with
       | none => []
       | some tup => [⟨n, L - (u + row_required (some tup)), tup⟩]) ++
        rowWrites g (n + proj_binary t) (u + row_required t) L := by
  unfold rowWrites
  rw [List.length_cons, List.range_succ_eq_map, List.filterMap_cons, List.filterMap_map]
  have h1 : ((fun i =>
        match (t :: g).getD i none with
        | none => none
        | some tup =>
            some ({ idxPos := n + stairlike_offset ((t :: g).map proj_binary) i,
                    tupOff := L - (u + stairlike_offset ((t :: g).map row_required) i +
                                row_required (some tup)),
                    tup := tup } : RowWrite)) ∘ Nat.succ) =
      fun i =>
        match g.getD i none with
        | none => none
        | some tup =>
            some ({ idxPos := (n + proj_binary t) + stairlike_offset (g.map proj_binary) i,
                    tupOff := L - ((u + row_required t) +
                                stairlike_offset (g.map row_required) i +
                                row_required (some tup)),
                    tup := tup } : RowWrite) := by
    funext i
    simp only [Function.comp_apply, List.getD_cons_succ, List.map_cons, stairlike_offset_cons]
    cases g.getD i none with
    | none => rfl
    | some tup => simp [Nat.add_assoc]
  rw [h1]
  cases t with
  | none => simp [stairlike_offset_zero]
  | some tup => simp [stairlike_offset_zero]

/-! ### The three regimes of one row-projector group -/

theorem projection_row_step2_fail (g : List (Option kern_tupitem)) (s : RowDst)
    (h : s.nrooms <
      (if 0 < stairlike_total (g.map proj_binary) then s.nitems else 0) +
        stairlike_total (g.map proj_binary)) :
    gpuscan_projection_row g s =
      ({ s with nitems := s.nitems + stairlike_total (g.map proj_binary) },
       ⟨StromError_DataStoreNoSpace, []⟩) := by
  simp only [gpuscan_projection_row, if_pos h]

theorem projection_row_step3_fail (g : List (Option kern_tupitem)) (s : RowDst)
    (h2 : ¬ s.nrooms <
      (if 0 < stairlike_total (g.map proj_binary) then s.nitems else 0) +
        stairlike_total (g.map proj_binary))
    (h3 : s.length < s.head_sz +
        STROMALIGN (4 * (s.nitems + stairlike_total (g.map proj_binary))) +
        (if 0 < stairlike_total (g.map row_required) then s.usage else 0) +
        stairlike_total (g.map row_required)) :
    gpuscan_projection_row g s =
      ({ s with nitems := s.nitems + stairlike_total (g.map proj_binary),
                usage := s.usage + stairlike_total (g.map row_required) },
       ⟨StromError_DataStoreNoSpace, []⟩) := by
  simp only [gpuscan_projection_row, if_neg h2, if_pos h3]

theorem projection_row_commit (g : List (Option kern_tupitem)) (s : RowDst)
    (h2 : ¬ s.nrooms <
      (if 0 < stairlike_total (g.map proj_binary) then s.nitems else 0) +
        stairlike_total (g.map proj_binary))
    (h3 : ¬ s.length < s.head_sz +
        STROMALIGN (4 * (s.nitems + stairlike_total (g.map proj_binary))) +
        (if 0 < stairlike_total (g.map row_required) then s.usage else 0) +
        stairlike_total (g.map row_required)) :
    gpuscan_projection_row g s =
      ({ s with nitems := s.nitems + stairlike_total (g.map proj_binary),
                usage := s.usage + stairlike_total (g.map row_required),
                arena := applyRowWrites s.head_sz s.arena
                  (rowWrites g
                    (if 0 < stairlike_total (g.map proj_binary) then s.nitems else 0)
                    (if 0 < stairlike_total (g.map row_required) then s.usage else 0)
                    s.length) },
       ⟨StromError_Success,
        rowWrites g
          (if 0 < stairlike_total (g.map proj_binary) then s.nitems else 0)
          (if 0 < stairlike_total (g.map row_required) then s.usage else 0)
          s.length⟩) := by
  simp only [gpuscan_projection_row, if_neg h2, if_neg h3]

/-! ### C1: `nitems ≤ nrooms` under the success proviso -/

theorem runRow_nitems_le (gs : List (List (Option kern_tupitem))) :
    ∀ s : RowDst, s.nitems ≤ s.nrooms →
      (∀ o ∈ (runRow gs s).2, o.errcode = StromError_Success) →
      (runRow gs s).1.nitems ≤ (runRow gs s).1.nrooms := by
  induction gs with
  | nil => exact fun s h _ => h
  | cons g gs ih =>
    intro s hs hall
    rw [runRow_cons] at hall ⊢
    by_cases h2 : s.nrooms <
        (if 0 < stairlike_total (g.map proj_binary) then s.nitems else 0) +
          stairlike_total (g.map proj_binary)
    · exfalso
      have := hall _ (List.mem_cons_self _ _)
      rw [projection_row_step2_fail g s h2] at this
      have hds : StromError_DataStoreNoSpace = StromError_Success := this
      exact absurd hds (by decide)
    · by_cases h3 : s.length < s.head_sz +
          STROMALIGN (4 * (s.nitems + stairlike_total (g.map proj_binary))) +
          (if 0 < stairlike_total (g.map row_required) then s.usage else 0) +
          stairlike_total (g.map row_required)
      · exfalso
        have := hall _ (List.mem_cons_self _ _)
        rw [projection_row_step3_fail g s h2 h3] at this
        have hds : StromError_DataStoreNoSpace = StromError_Success := this
        exact absurd hds (by decide)
      · refine ih _ ?_ ?_
        · rw [projection_row_commit g s h2 h3]
          by_cases hc : 0 < stairlike_total (g.map proj_binary)
          · rw [if_pos hc] at h2
            simpa using Nat.le_of_not_lt h2
          · have hc0 : stairlike_total (g.map proj_binary) = 0 := by omega
            simpa [hc0] using hs
        · intro o ho
          exact hall o (List.mem_cons_of_mem _ ho)

theorem runSlot_nitems_le (gs : List (List (Option kern_tupitem))) :
    ∀ s : SlotDst, s.nitems ≤ s.nrooms →
      (∀ o ∈ (runSlot gs s).2, o.errcode = StromError_Success) →
      (runSlot gs s).1.nitems ≤ (runSlot gs s).1.nrooms := by
  induction gs with
  | nil => exact fun s h _ => h
  | cons g gs ih =>
    intro s hs hall
    rw [runSlot_cons] at hall ⊢
    by_cases hov : s.nrooms <
        (if 0 < stairlike_total (g.map proj_binary) then s.nitems else 0) +
          stairlike_total (g.map proj_binary)
    · exfalso
      have := hall _ (List.mem_cons_self _ _)
      simp only [gpuscan_projection_slot, if_pos hov] at this
      have hds : StromError_DataStoreNoSpace = StromError_Success := this
      exact absurd hds (by decide)
    · refine ih _ ?_ ?_
      · simp only [gpuscan_projection_slot, if_neg hov]
        by_cases hc : 0 < stairlike_total (g.map proj_binary)
        · rw [if_pos hc] at hov
          simpa using Nat.le_of_not_lt hov
        · have hc0 : stairlike_total (g.map proj_binary) = 0 := by omega
          simpa [hc0] using hs
      · intro o ho
        refine hall o ?_
        simp only [gpuscan_projection_slot] at ho ⊢
        split at ho <;> simp_all [List.mem_cons]

/-- C1 (amended): after an invocation in which no group raised
`DataStoreNoSpace` (so the invocation's error code is `Success`), the
destination's `nitems` is at most its `nrooms`, for both the row-format and
slot-format projectors.  Without the success proviso the claim fails,
because each group's count is atomically added to `nitems` before the
capacity check (see the counterexample). -/
theorem C1_items_le_rooms_of_success
    (hsz ln rm nc : ℕ) (gs : List (List (Option kern_tupitem)))
    (hrow : ∀ o ∈ (runRow gs (freshRow hsz ln rm)).2, o.errcode = StromError_Success)
    (hslot : ∀ o ∈ (runSlot gs (freshSlot rm nc)).2, o.errcode = StromError_Success) :
    (runRow gs (freshRow hsz ln rm)).1.nitems ≤ (runRow gs (freshRow hsz ln rm)).1.nrooms ∧
    (runSlot gs (freshSlot rm nc)).1.nitems ≤ (runSlot gs (freshSlot rm nc)).1.nrooms :=
  ⟨runRow_nitems_le gs _ (Nat.zero_le _) hrow,
   runSlot_nitems_le gs _ (Nat.zero_le _) hslot⟩

/-- Witness for C1: a successful run with one passing row in each format. -/
theorem C1_items_le_rooms_of_success_witness :
    (∀ o ∈ (runRow [[some ⟨2, [1, 2]⟩]] (freshRow 0 64 4)).2,
        o.errcode = StromError_Success) ∧
    (∀ o ∈ (runSlot [[some ⟨2, [1, 2]⟩]] (freshSlot 4 2)).2,
        o.errcode = StromError_Success) ∧
    ((runRow [[some ⟨2, [1, 2]⟩]] (freshRow 0 64 4)).1.nitems
        ≤ (runRow [[some ⟨2, [1, 2]⟩]] (freshRow 0 64 4)).1.nrooms ∧
     (runSlot [[some ⟨2, [1, 2]⟩]] (freshSlot 4 2)).1.nitems
        ≤ (runSlot [[some ⟨2, [1, 2]⟩]] (freshSlot 4 2)).1.nrooms) :=
  ⟨by decide, by decide,
   C1_items_le_rooms_of_success 0 64 4 2 [[some ⟨2, [1, 2]⟩]] (by decide) (by decide)⟩

/-- C1 as stated is false: a slot destination with `nrooms = 1` receiving
two qualifying rows in one group ends the invocation with `nitems = 2`,
exceeding `nrooms`. -/
theorem C1_counterexample :
    ¬((runSlot [[some ⟨0, []⟩, some ⟨0, []⟩]] (freshSlot 1 2)).1.nitems
        ≤ (runSlot [[some ⟨0, []⟩, some ⟨0, []⟩]] (freshSlot 1 2)).1.nrooms) := by
  decide

/-! ### C4: scenario B -/

/-- C4 (amended): a row-format destination with `roomCapacity = 2` receiving
4 qualifying rows in a single group ends with a `DataStoreNoSpace` group
error, zero tuple bytes written (the arena is untouched and `usage` stays 0),
and `itemCount = 4`: the whole group count is atomically added to `nitems`
before the overflow is detected, so `nitems` is not left at the pre-overflow
commit count. -/
theorem C4_scenarioB (t1 t2 t3 t4 : kern_tupitem) (hsz ln : ℕ) :
    (runRow [[some t1, some t2, some t3, some t4]] (freshRow hsz ln 2)).2
        = [⟨StromError_DataStoreNoSpace, []⟩] ∧
    (runRow [[some t1, some t2, some t3, some t4]] (freshRow hsz ln 2)).1.nitems = 4 ∧
    (runRow [[some t1, some t2, some t3, some t4]] (freshRow hsz ln 2)).1.usage = 0 ∧
    (runRow [[some t1, some t2, some t3, some t4]] (freshRow hsz ln 2)).1.arena
        = (freshRow hsz ln 2).arena :=
  ⟨rfl, rfl, rfl, rfl⟩

/-- C4 as stated is false at the concrete scenario: `itemCount` is not left
at a value `≤ 2`; it ends at 4. -/
theorem C4_counterexample :
    ¬((runRow [[some ⟨0, []⟩, some ⟨0, []⟩, some ⟨0, []⟩, some ⟨0, []⟩]]
        (freshRow 0 999 2)).1.nitems ≤ 2) := by
  decide

/-! ### Bounds on one group's committed writes -/

theorem MAXALIGN_ge (n : ℕ) : n ≤ MAXALIGN n := by
  unfold MAXALIGN
  omega

theorem STROMALIGN_ge (n : ℕ) : n ≤ STROMALIGN n := by
  unfold STROMALIGN
  omega

theorem row_required_pos (t : Option kern_tupitem) : 0 < row_required t := by
  have h := MAXALIGN_ge (kern_tupitem_htup_offset + tuple_len t)
  unfold row_required kern_tupitem_htup_offset at *
  omega

theorem row_required_total_pos (t : Option kern_tupitem) (g : List (Option kern_tupitem)) :
    0 < stairlike_total ((t :: g).map row_required) := by
  rw [List.map_cons, stairlike_total_cons]
  have := row_required_pos t
  omega

/-- Index-array slots a group reserves lie in
`[nitems_prev, nitems_prev + count)`. -/
theorem rowWrites_idx_bounds (g : List (Option kern_tupitem)) :
    ∀ (n u L : ℕ), ∀ w ∈ rowWrites g n u L,
      n ≤ w.idxPos ∧ w.idxPos < n + stairlike_total (g.map proj_binary) := by
  induction g with
  | nil =>
    intro n u L w hw
    simp [rowWrites_nil] at hw
  | cons t g ih =>
    intro n u L w hw
    rw [rowWrites_cons] at hw
    rw [List.map_cons, stairlike_total_cons]
    rcases List.mem_append.mp hw with hw | hw
    · cases t with
      | none => simp at hw
      | some tup =>
        simp only [List.mem_singleton] at hw
        subst hw
        simp only [proj_binary, Option.isSome_some, if_pos]
        omega
    · have := ih (n + proj_binary t) (u + row_required t) L w hw
      omega

/-- Tuple bytes a group reserves lie in the byte range
`[length - (usage_prev + count2), length - usage_prev)`. -/
theorem rowWrites_tup_bounds (g : List (Option kern_tupitem)) :
    ∀ (n u L : ℕ), u + stairlike_total (g.map row_required) ≤ L →
      ∀ w ∈ rowWrites g n u L,
        L - (u + stairlike_total (g.map row_required)) ≤ w.tupOff ∧
        w.tupOff + rwLen w ≤ L - u := by
  induction g with
  | nil =>
    intro n u L _ w hw
    simp [rowWrites_nil] at hw
  | cons t g ih =>
    intro n u L hL w hw
    rw [List.map_cons, stairlike_total_cons] at hL ⊢
    rw [rowWrites_cons] at hw
    rcases List.mem_append.mp hw with hw | hw
    · cases t with
      | none => simp at hw
      | some tup =>
        simp only [List.mem_singleton] at hw
        subst hw
        have hre : kern_tupitem_htup_offset + tup.t_len ≤ row_required (some tup) :=
          MAXALIGN_ge _
        dsimp only [rwLen]
        refine ⟨by omega, by omega⟩
    · have := ih (n + proj_binary t) (u + row_required t) L (by omega) w hw
      exact ⟨by omega, by omega⟩

/-- Within one group, a later thread's tuple range ends at or below an
earlier thread's tuple offset: the reserved byte ranges are disjoint. -/
theorem rowWrites_pairwise (g : List (Option kern_tupitem)) :
    ∀ (n u L : ℕ), u + stairlike_total (g.map row_required) ≤ L →
      List.Pairwise (fun w w' => w'.tupOff + rwLen w' ≤ w.tupOff) (rowWrites g n u L) := by
  induction g with
  | nil =>
    intro n u L _
    simp [rowWrites_nil]
  | cons t g ih
  =>
    intro n u L hL
    rw [List.map_cons, stairlike_total_cons] at hL
    rw [rowWrites_cons]
    cases t with
    | none =>
      simpa using ih (n + proj_binary none) (u + row_required none) L (by omega)
    | some tup =>
      simp only [List.cons_append, List.nil_append]
      refine List.Pairwise.cons ?_ (ih _ _ L (by omega))
      intro w' hw'
      have hb := (rowWrites_tup_bounds g (n + proj_binary (some tup))
        (u + row_required (some tup)) L (by omega) w' hw').2
      show w'.tupOff + rwLen w' ≤ L - (u + row_required (some tup))
      exact hb

/-! ### Applying a group's writes to the arena -/

theorem applyRowWrite_untouched (hs : ℕ) (arena : ℕ → ℕ) (w : RowWrite) (a : ℕ)
    (ht : ¬(w.tupOff ≤ a ∧ a < w.tupOff + rwLen w))
    (hi : ¬(hs + 4 * w.idxPos ≤ a ∧ a < hs + 4 * w.idxPos + 4)) :
    applyRowWrite hs arena w a = arena a := by
  unfold rwLen at ht
  unfold applyRowWrite writeIndexEntry writeTuple
  rw [if_neg hi, if_neg ht]

theorem applyRowWrites_untouched (hs : ℕ) (ws : List RowWrite) :
    ∀ (arena : ℕ → ℕ) (a : ℕ),
      (∀ w ∈ ws, ¬(w.tupOff ≤ a ∧ a < w.tupOff + rwLen w) ∧
                 ¬(hs + 4 * w.idxPos ≤ a ∧ a < hs + 4 * w.idxPos + 4)) →
      applyRowWrites hs arena ws a = arena a := by
  induction ws with
  | nil =>
    intro arena a _
    rfl
  | cons w ws ih =>
    intro arena a h
    have hw := h w (List.mem_cons_self _ _)
    show applyRowWrites hs (applyRowWrite hs arena w) ws a = arena a
    rw [ih _ a fun w' hw' => h w' (List.mem_cons_of_mem _ hw')]
    exact applyRowWrite_untouched hs arena w a hw.1 hw.2

/-- If the group's tuple ranges are pairwise disjoint and the whole index
region sits below every tuple offset, then after the group's stores each
committed tuple's bytes are the source item's bytes (the memcpy landed and
nothing overwrote it). -/
theorem applyRowWrites_value (hs : ℕ) (ws : List RowWrite) :
    List.Pairwise (fun w w' => w'.tupOff + rwLen w' ≤ w.tupOff) ws →
    (∀ w ∈ ws, ∀ w' ∈ ws, hs + 4 * w.idxPos + 4 ≤ w'.tupOff) →
    ∀ (arena : ℕ → ℕ), ∀ w ∈ ws, ∀ j, j < rwLen w →
      applyRowWrites hs arena ws (w.tupOff + j) = w.tup.bytes.getD j 0 := by
  induction ws with
  | nil =>
    intro _ _ arena w hw
    simp at hw
  | cons w0 ws ih =>
    intro hpair hsep arena w hw j hj
    rcases List.mem_cons.mp hw with rfl | hw
    · show applyRowWrites hs (applyRowWrite hs arena w) ws (w.tupOff + j) = _
      rw [applyRowWrites_untouched]
      · unfold applyRowWrite writeIndexEntry writeTuple
        have hown := hsep w (List.mem_cons_self _ _) w (List.mem_cons_self _ _)
        have hidx : ¬(hs + 4 * w.idxPos ≤ w.tupOff + j ∧
            w.tupOff + j < hs + 4 * w.idxPos + 4) := by omega
        have hin : w.tupOff ≤ w.tupOff + j ∧
            w.tupOff + j < w.tupOff + (kern_tupitem_htup_offset + w.tup.t_len) := by
          unfold rwLen at hj
          omega
        rw [if_neg hidx, if_pos hin, Nat.add_sub_cancel_left]
      · intro w' hw'
        have hp := (List.pairwise_cons.mp hpair).1 w' hw'
        have hs' := hsep w' (List.mem_cons_of_mem _ hw') w (List.mem_cons_self _ _)
        exact ⟨by omega, by omega⟩
    · show applyRowWrites hs (applyRowWrite hs arena w0) ws (w.tupOff + j) = _
      exact ih (List.pairwise_cons.mp hpair).2
        (fun a ha b hb => hsep a (List.mem_cons_of_mem _ ha) b (List.mem_cons_of_mem _ hb))
        _ w hw j hj

theorem applyRowWrites_nil (hs : ℕ) (arena : ℕ → ℕ) : applyRowWrites hs arena [] = arena :=
  rfl

/-! ### The cross-group arena invariant -/

/-- Safety invariant of the row destination against the log `L` of all
writes committed so far: every committed index slot lies below the current
`nitems`, every committed tuple sits inside the already-consumed byte tail
`[length - usage, length)`, the whole committed index region lies strictly
below every committed tuple offset (the two growing regions never cross),
and the arena still holds every committed tuple's source bytes. -/
def RowInv (s : RowDst) (L : List RowWrite) : Prop :=
  (∀ w ∈ L, w.idxPos < s.nitems) ∧
  (∀ w ∈ L, s.length - s.usage ≤ w.tupOff ∧ w.tupOff + rwLen w ≤ s.length) ∧
  (∀ w ∈ L, ∀ w' ∈ L, s.head_sz + 4 * w.idxPos + 4 ≤ w'.tupOff) ∧
  (∀ w ∈ L, ∀ j, j < rwLen w → s.arena (w.tupOff + j) = w.tup.bytes.getD j 0)

theorem rowInv_fresh (hsz ln rm : ℕ) : RowInv (freshRow hsz ln rm) [] := by
  unfold RowInv
  refine ⟨?_, ?_, ?_, ?_⟩ <;> simp

/-- One projector group preserves the invariant, extending the log by the
group's committed writes. -/
theorem rowInv_step (g : List (Option kern_tupitem)) (s : RowDst) (L : List RowWrite)
    (hinv : RowInv s L) :
    RowInv (gpuscan_projection_row g s).1 (L ++ (gpuscan_projection_row g s).2.writes) := by
  obtain ⟨hidx, htup, hcross, harena⟩ := hinv
  by_cases h2 : s.nrooms <
      (if 0 < stairlike_total (g.map proj_binary) then s.nitems else 0) +
        stairlike_total (g.map proj_binary)
  · rw [projection_row_step2_fail g s h2]
    unfold RowInv
    refine ⟨?_, ?_, ?_, ?_⟩ <;> dsimp only <;> simp only [List.append_nil]
    · intro w hw
      have := hidx w hw
      omega
    · exact htup
    · exact hcross
    · exact harena
  · by_cases h3 : s.length < s.head_sz +
        STROMALIGN (4 * (s.nitems + stairlike_total (g.map proj_binary))) +
        (if 0 < stairlike_total (g.map row_required) then s.usage else 0) +
        stairlike_total (g.map row_required)
    · rw [projection_row_step3_fail g s h2 h3]
      unfold RowInv
      refine ⟨?_, ?_, ?_, ?_⟩ <;> dsimp only <;> simp only [List.append_nil]
      · intro w hw
        have := hidx w hw
        omega
      · intro w hw
        have := htup w hw
        exact ⟨by omega, this.2⟩
      · exact hcross
      · exact harena
    · rw [projection_row_commit g s h2 h3]
      cases g with
      | nil =>
        unfold RowInv
        refine ⟨?_, ?_, ?_, ?_⟩ <;> dsimp only <;>
          simp only [List.map_nil, stairlike_total, List.sum_nil, Nat.add_zero,
            rowWrites_nil, applyRowWrites_nil, List.append_nil]
        · exact hidx
        · exact htup
        · exact hcross
        · exact harena
      | cons t g' =>
        have hc2 : 0 < stairlike_total ((t :: g').map row_required) :=
          row_required_total_pos t g'
        have huprev : (if 0 < stairlike_total ((t :: g').map row_required)
            then s.usage else 0) = s.usage := if_pos hc2
        rw [huprev] at h3 ⊢
        have hbound := Nat.le_of_not_lt h3
        set c1 := stairlike_total ((t :: g').map proj_binary) with hc1def
        set c2 := stairlike_total ((t :: g').map row_required) with hc2def
        set nprev := if 0 < c1 then s.nitems else 0 with hnprevdef
        set ws := rowWrites (t :: g') nprev s.usage s.length with hwsdef
        have hle : s.usage + c2 ≤ s.length := by omega
        have hB1 := rowWrites_idx_bounds (t :: g') nprev s.usage s.length
        have hB2 := rowWrites_tup_bounds (t :: g') nprev s.usage s.length hle
        have hpair := rowWrites_pairwise (t :: g') nprev s.usage s.length hle
        have hidx_new : ∀ w ∈ ws, w.idxPos < s.nitems + c1 := by
          intro w hw
          have hb := (hB1 w hw).2
          by_cases hcc : 0 < c1
          · rw [hnprevdef, if_pos hcc] at hb
            omega
          · rw [hnprevdef, if_neg hcc] at hb
            omega
        have halign := STROMALIGN_ge (4 * (s.nitems + c1))
        have hcross_new : ∀ w ∈ ws,
            s.head_sz + 4 * w.idxPos + 4 ≤ s.length - (s.usage + c2) := by
          intro w hw
          have := hidx_new w hw
          omega
        unfold RowInv
        refine ⟨?_, ?_, ?_, ?_⟩ <;> dsimp only
        · intro w hw
          rcases List.mem_append.mp hw with hw | hw
          · have := hidx w hw
            omega
          · exact hidx_new w hw
        · intro w hw
          rcases List.mem_append.mp hw with hw | hw
          · have := htup w hw
            exact ⟨by omega, this.2⟩
          · have := hB2 w hw
            exact ⟨this.1, by omega⟩
        · intro w hw w' hw'
          rcases List.mem_append.mp hw with hw | hw <;>
            rcases List.mem_append.mp hw' with hw' | hw'
          · exact hcross w hw w' hw'
          · have h1 := hidx w hw
            have h4 := (hB2 w' hw').1
            omega
          · have h1 := hcross_new w hw
            have h4 := (htup w' hw').1
            omega
          · have h1 := hcross_new w hw
            have h4 := (hB2 w' hw').1
            omega
        · intro w hw j hj
          rcases List.mem_append.mp hw with hw | hw
          · have hwold := htup w hw
            have hu := applyRowWrites_untouched s.head_sz ws s.arena (w.tupOff + j)
              (by
                intro w' hw'
                have hw'2 := (hB2 w' hw').2
                have hcn := hcross_new w' hw'
                exact ⟨by omega, by omega⟩)
            rw [hu]
            exact harena w hw j hj
          · exact applyRowWrites_value s.head_sz ws hpair
              (fun a ha b hb => by
                have h5 := hcross_new a ha
                have h6 := (hB2 b hb).1
                omega)
              s.arena w hw j hj

def outsWrites (outs : List RowGroupOut) : List RowWrite :=
  (outs.map RowGroupOut.writes).flatten

theorem outsWrites_cons (o : RowGroupOut) (outs : List RowGroupOut) :
    outsWrites (o :: outs) = o.writes ++ outsWrites outs := by
  simp [outsWrites]

theorem mem_outsWrites (w : RowWrite) (outs : List RowGroupOut) :
    w ∈ outsWrites outs ↔ ∃ o ∈ outs, w ∈ o.writes := by
  simp [outsWrites, List.mem_flatten]

theorem runRow_inv (gs : List (List (Option kern_tupitem))) :
    ∀ (s : RowDst) (L : List RowWrite), RowInv s L →
      RowInv (runRow gs s).1 (L ++ outsWrites (runRow gs s).2) := by
  induction gs with
  | nil =>
    intro s L h
    simpa [runRow, outsWrites] using h
  | cons g gs ih =>
    intro s L h
    rw [runRow_cons]
    have hrec := ih (gpuscan_projection_row g s).1 _ (rowInv_step g s L h)
    dsimp only at hrec ⊢
    rw [outsWrites_cons, ← List.append_assoc]
    exact hrec

theorem runRow_head_len (gs : List (List (Option kern_tupitem))) :
    ∀ s : RowDst, (runRow gs s).1.head_sz = s.head_sz ∧ (runRow gs s).1.length = s.length := by
  induction gs with
  | nil => exact fun s => ⟨rfl, rfl⟩
  | cons g gs ih =>
    intro s
    rw [runRow_cons]
    have hstep : (gpuscan_projection_row g s).1.head_sz = s.head_sz ∧
        (gpuscan_projection_row g s).1.length = s.length := by
      by_cases h2 : s.nrooms <
          (if 0 < stairlike_total (g.map proj_binary) then s.nitems else 0) +
            stairlike_total (g.map proj_binary)
      · rw [projection_row_step2_fail g s h2]
        exact ⟨rfl, rfl⟩
      · by_cases h3 : s.length < s.head_sz +
            STROMALIGN (4 * (s.nitems + stairlike_total (g.map proj_binary))) +
            (if 0 < stairlike_total (g.map row_required) then s.usage else 0) +
            stairlike_total (g.map row_required)
        · rw [projection_row_step3_fail g s h2 h3]
          exact ⟨rfl, rfl⟩
        · rw [projection_row_commit g s h2 h3]
          exact ⟨rfl, rfl⟩
    have hrec := ih (gpuscan_projection_row g s).1
    exact ⟨hrec.1.trans hstep.1, hrec.2.trans hstep.2⟩

/-- C3: over any invocation on a zero-initialised row destination, the
committed index-array region never crosses the committed tuple bytes: every
committed index entry's four bytes end at or below every committed tuple's
offset.  Moreover, whenever a group's byte reservation would collide with
the index region (the step-3 check at `cuda_gpuscan.h:227-229` fires), that
group raises `DataStoreNoSpace` and commits nothing: no tuple bytes, no
index entry, the arena is untouched by that group. -/
theorem C3_arena_safety (hsz ln rm : ℕ) (gs : List (List (Option kern_tupitem))) :
    (∀ o1 ∈ (runRow gs (freshRow hsz ln rm)).2, ∀ w1 ∈ o1.writes,
     ∀ o2 ∈ (runRow gs (freshRow hsz ln rm)).2, ∀ w2 ∈ o2.writes,
        hsz + 4 * w1.idxPos + 4 ≤ w2.tupOff) ∧
    (∀ (s : RowDst) (g : List (Option kern_tupitem)),
      ¬ s.nrooms < (if 0 < stairlike_total (g.map proj_binary) then s.nitems else 0) +
          stairlike_total (g.map proj_binary) →
      s.length < s.head_sz +
          STROMALIGN (4 * (s.nitems + stairlike_total (g.map proj_binary))) +
          (if 0 < stairlike_total (g.map row_required) then s.usage else 0) +
          stairlike_total (g.map row_required) →
      (gpuscan_projection_row g s).2.errcode = StromError_DataStoreNoSpace ∧
      (gpuscan_projection_row g s).2.writes = [] ∧
      (gpuscan_projection_row g s).1.arena = s.arena) := by
  constructor
  · intro o1 ho1 w1 hw1 o2 ho2 w2 hw2
    have hinv := runRow_inv gs (freshRow hsz ln rm) [] (rowInv_fresh hsz ln rm)
    rw [List.nil_append] at hinv
    have hhead := (runRow_head_len gs (freshRow hsz ln rm)).1
    have hc := hinv.2.2.1 w1 ((mem_outsWrites _ _).mpr ⟨o1, ho1, hw1⟩)
      w2 ((mem_outsWrites _ _).mpr ⟨o2, ho2, hw2⟩)
    rw [hhead] at hc
    exact hc
  · intro s g h2 h3
    rw [projection_row_step3_fail g s h2 h3]
    exact ⟨rfl, rfl, rfl⟩

/-- Witness for C3: one group committing one tuple — its index entry's bytes
`[0, 4)` lie below its tuple offset 48 — and a concrete state on which the
byte reservation would collide, yielding the no-space error and no writes. -/
theorem C3_arena_safety_witness :
    ((⟨StromError_Success, [⟨0, 48, ⟨2, [9, 8, 7, 6, 5, 4, 3, 2, 1, 0]⟩⟩]⟩ : RowGroupOut) ∈
        (runRow [[some ⟨2, [9, 8, 7, 6, 5, 4, 3, 2, 1, 0]⟩]] (freshRow 0 64 4)).2) ∧
    ((⟨0, 48, ⟨2, [9, 8, 7, 6, 5, 4, 3, 2, 1, 0]⟩⟩ : RowWrite) ∈
        (⟨StromError_Success, [⟨0, 48, ⟨2, [9, 8, 7, 6, 5, 4, 3, 2, 1, 0]⟩⟩]⟩ :
          RowGroupOut).writes) ∧
    (0 + 4 * (⟨0, 48, ⟨2, [9, 8, 7, 6, 5, 4, 3, 2, 1, 0]⟩⟩ : RowWrite).idxPos + 4 ≤
        (⟨0, 48, ⟨2, [9, 8, 7, 6, 5, 4, 3, 2, 1, 0]⟩⟩ : RowWrite).tupOff) ∧
    (¬ (freshRow 0 8 4).nrooms <
        (if 0 < stairlike_total ([some (⟨2, [9, 8]⟩ : kern_tupitem)].map proj_binary)
         then (freshRow 0 8 4).nitems else 0) +
          stairlike_total ([some (⟨2, [9, 8]⟩ : kern_tupitem)].map proj_binary)) ∧
    ((freshRow 0 8 4).length < (freshRow 0 8 4).head_sz +
        STROMALIGN (4 * ((freshRow 0 8 4).nitems +
          stairlike_total ([some (⟨2, [9, 8]⟩ : kern_tupitem)].map proj_binary))) +
        (if 0 < stairlike_total ([some (⟨2, [9, 8]⟩ : kern_tupitem)].map row_required)
         then (freshRow 0 8 4).usage else 0) +
        stairlike_total ([some (⟨2, [9, 8]⟩ : kern_tupitem)].map row_required)) ∧
    ((gpuscan_projection_row [some ⟨2, [9, 8]⟩] (freshRow 0 8 4)).2.errcode
        = StromError_DataStoreNoSpace ∧
     (gpuscan_projection_row [some ⟨2, [9, 8]⟩] (freshRow 0 8 4)).2.writes = [] ∧
     (gpuscan_projection_row [some ⟨2, [9, 8]⟩] (freshRow 0 8 4)).1.arena
        = (freshRow 0 8 4).arena) :=
  ⟨by decide, by decide,
   (C3_arena_safety 0 64 4 [[some ⟨2, [9, 8, 7, 6, 5, 4, 3, 2, 1, 0]⟩]]).1
     ⟨StromError_Success, [⟨0, 48, ⟨2, [9, 8, 7, 6, 5, 4, 3, 2, 1, 0]⟩⟩]⟩ (by decide)
     ⟨0, 48, ⟨2, [9, 8, 7, 6, 5, 4, 3, 2, 1, 0]⟩⟩ (by decide)
     ⟨StromError_Success, [⟨0, 48, ⟨2, [9, 8, 7, 6, 5, 4, 3, 2, 1, 0]⟩⟩]⟩ (by decide)
     ⟨0, 48, ⟨2, [9, 8, 7, 6, 5, 4, 3, 2, 1, 0]⟩⟩ (by decide),
   by decide, by decide,
   (C3_arena_safety 0 64 4 [[some ⟨2, [9, 8, 7, 6, 5, 4, 3, 2, 1, 0]⟩]]).2
     (freshRow 0 8 4) [some ⟨2, [9, 8]⟩] (by decide) (by decide)⟩

/-- C5: in verbatim-copy mode, for every surviving row of any invocation on
a zero-initialised row destination, the destination arena at the reserved
offset reproduces the source tuple item byte for byte over the full memcpy
size `offsetof(kern_tupitem, htup) + t_len`. -/
theorem C5_verbatim_bytes (hsz ln rm : ℕ) (gs : List (List (Option kern_tupitem))) :
    ∀ o ∈ (runRow gs (freshRow hsz ln rm)).2, ∀ w ∈ o.writes,
      ∀ j, j < kern_tupitem_htup_offset + w.tup.t_len →
        (runRow gs (freshRow hsz ln rm)).1.arena (w.tupOff + j)
          = w.tup.bytes.getD j 0 := by
  intro o ho w hw j hj
  have hinv := runRow_inv gs (freshRow hsz ln rm) [] (rowInv_fresh hsz ln rm)
  rw [List.nil_append] at hinv
  exact hinv.2.2.2 w ((mem_outsWrites _ _).mpr ⟨o, ho, hw⟩) j hj

/-- Witness for C5: the committed tuple of the concrete run above is
reproduced at its reserved offset: byte 0 of the copy equals byte 0 of the
source item. -/
theorem C5_verbatim_bytes_witness :
    ((⟨StromError_Success, [⟨0, 48, ⟨2, [9, 8, 7, 6, 5, 4, 3, 2, 1, 0]⟩⟩]⟩ : RowGroupOut) ∈
        (runRow [[some ⟨2, [9, 8, 7, 6, 5, 4, 3, 2, 1, 0]⟩]] (freshRow 5 64 4)).2) ∧
    ((⟨0, 48, ⟨2, [9, 8, 7, 6, 5, 4, 3, 2, 1, 0]⟩⟩ : RowWrite) ∈
        (⟨StromError_Success, [⟨0, 48, ⟨2, [9, 8, 7, 6, 5, 4, 3, 2, 1, 0]⟩⟩]⟩ :
          RowGroupOut).writes) ∧
    (0 < kern_tupitem_htup_offset +
        (⟨0, 48, ⟨2, [9, 8, 7, 6, 5, 4, 3, 2, 1, 0]⟩⟩ : RowWrite).tup.t_len) ∧
    (runRow [[some ⟨2, [9, 8, 7, 6, 5, 4, 3, 2, 1, 0]⟩]] (freshRow 5 64 4)).1.arena
        ((⟨0, 48, ⟨2, [9, 8, 7, 6, 5, 4, 3, 2, 1, 0]⟩⟩ : RowWrite).tupOff + 0)
      = (⟨0, 48, ⟨2, [9, 8, 7, 6, 5, 4, 3, 2, 1, 0]⟩⟩ : RowWrite).tup.bytes.getD 0 0 :=
  ⟨by decide, by decide, by decide,
   C5_verbatim_bytes 5 64 4 [[some ⟨2, [9, 8, 7, 6, 5, 4, 3, 2, 1, 0]⟩]]
     ⟨StromError_Success, [⟨0, 48, ⟨2, [9, 8, 7, 6, 5, 4, 3, 2, 1, 0]⟩⟩]⟩ (by decide)
     ⟨0, 48, ⟨2, [9, 8, 7, 6, 5, 4, 3, 2, 1, 0]⟩⟩ (by decide) 0 (by decide)⟩

/-! ## Invocation orchestrator `gpuscan_qual` -/

/-- The source data store: `nitems` candidate rows and the tuple item of
each (`KERN_DATA_STORE_TUPITEM` at `cuda_gpuscan.h:338`). -/
structure kern_data_store_src where
  nitems : ℕ
  tupitem : ℕ → kern_tupitem

/-- The destination store of caller-declared format: a two-variant tagged
union, asserted `KDS_FORMAT_ROW` or `KDS_FORMAT_SLOT` at
`cuda_gpuscan.h:357-358`. -/
inductive KdsDst
  | row (d : RowDst)
  | slot (d : SlotDst)

/-- A thread's tuple after qualifier evaluation (`cuda_gpuscan.h:336-347`):
out-of-range threads, rows the qualifier rejects, and rows whose evaluation
recorded an error all carry "no row".  `qual_eval gid = (visible, errcode)`
abstracts the generated `gpuscan_qual_eval` together with the error code it
may leave in the thread's kernel context. -/
def gpuscan_thread_tupitem (src : kern_data_store_src) (qual_eval : ℕ → Bool × ℕ)
    (gid : ℕ) : Option kern_tupitem :=
  if gid < src.nitems then
    if ¬(qual_eval gid).1 then none
    else if (qual_eval gid).2 ≠ StromError_Success then none
    else some (src.tupitem gid)
  else none

/-- The error code a thread's kernel context holds after predicate
evaluation; out-of-range threads never run the predicate. -/
def gpuscan_thread_errcode (src : kern_data_store_src) (qual_eval : ℕ → Bool × ℕ)
    (gid : ℕ) : ℕ :=
  if gid < src.nitems then (qual_eval gid).2 else StromError_Success

/-- Modelled from the spec (§4.5, §7): `kern_writeback_error_status`
(`cuda_common.h`, not under `src/`) performs a best-effort write of the
worst non-success error code observed by any thread into the shared cell. -/
def kern_writeback_error_status (cell e : ℕ) : ℕ := max cell e

/-- Each thread's context error after projection: its own predicate error,
with the group's projector error folded in through `STROM_SET_ERROR`
(which keeps the first error). -/
def invocationThreadErrs (src : kern_data_store_src) (qual_eval : ℕ → Bool × ℕ)
    (grouping : List (List ℕ)) (gerrs : List ℕ) : List ℕ :=
  ((grouping.zip gerrs).map fun p =>
      p.1.map fun gid =>
        STROM_SET_ERROR (gpuscan_thread_errcode src qual_eval gid) p.2).flatten

/-- All thread error codes of one invocation, for either destination
format. -/
def invocationErrList (src : kern_data_store_src) (qual_eval : ℕ → Bool × ℕ)
    (grouping : List (List ℕ)) (kds_dst : KdsDst) : List ℕ :=
  match kds_dst with
  | .row d =>
      invocationThreadErrs src qual_eval grouping
        ((runRow (grouping.map fun g => g.map (gpuscan_thread_tupitem src qual_eval))
            d).2.map RowGroupOut.errcode)
  | .slot d =>
      invocationThreadErrs src qual_eval grouping
        ((runSlot (grouping.map fun g => g.map (gpuscan_thread_tupitem src qual_eval))
            d).2.map SlotGroupOut.errcode)

structure InvocationOut where
  kresults : kern_resultbuf
  dst : KdsDst
  errcode : ℕ

/-- `gpuscan_qual` (`cuda_gpuscan.h:322-368`): every thread — in-range or
not, row or no row — derives its tuple-or-none and then participates in the
projector matching the destination's declared format; afterwards the worst
error code observed by any thread is written back to the caller-visible
cell.  The result buffer `kresults` is computed (`cuda_gpuscan.h:328`) but
never handed to `gpuscan_writeback_results`, so it passes through
untouched. -/
def gpuscan_qual (src : kern_data_store_src) (qual_eval : ℕ → Bool × ℕ)
    (grouping : List (List ℕ)) (errcode0 : ℕ) (kresults : kern_resultbuf)
    (kds_dst : KdsDst) : InvocationOut :=
  let groups := grouping.map fun g => g.map (gpuscan_thread_tupitem src qual_eval)
  let cell := (invocationErrList src qual_eval grouping kds_dst).foldl
    kern_writeback_error_status errcode0
  match kds_dst with
  | .row d => { kresults := kresults, dst := .row (runRow groups d).1, errcode := cell }
  | .slot d => { kresults := kresults, dst := .slot (runSlot groups d).1, errcode := cell }

/-! ### C6: the orchestrator never feeds the Result Accumulator -/

/-- C6 (code behaviour): `gpuscan_qual` computes the result-buffer pointer
(`cuda_gpuscan.h:328`) but never invokes `gpuscan_writeback_results`; the
result buffer passes through the invocation untouched — concretely, with one
candidate row that passes the predicate, `kresults.nitems` is still 0 after
the invocation and no signed index was recorded. -/
theorem C6_results_untouched :
    (∀ (src : kern_data_store_src) (qual_eval : ℕ → Bool × ℕ)
        (grouping : List (List ℕ)) (e0 : ℕ) (kr : kern_resultbuf) (dst : KdsDst),
        (gpuscan_qual src qual_eval grouping e0 kr dst).kresults = kr) ∧
    (gpuscan_qual ⟨1, fun _ => ⟨4, [1, 2, 3, 4, 5, 6, 7, 8, 9, 10, 11, 12]⟩⟩
        (fun _ => (true, StromError_Success)) [[0]] 0 (wb_fresh 4)
        (KdsDst.slot (freshSlot 4 2))).kresults.nitems = 0 ∧
    gpuscan_thread_tupitem ⟨1, fun _ => ⟨4, [1, 2, 3, 4, 5, 6, 7, 8, 9, 10, 11, 12]⟩⟩
        (fun _ => (true, StromError_Success)) 0 ≠ none := by
  refine ⟨?_, rfl, by decide⟩
  intro src qual_eval grouping e0 kr dst
  cases dst <;> rfl

/-! ### C7: collective participation -/

/-- C7 (amended): every thread — passed, failed, errored or out of range —
participates in the projector matching the destination's declared format,
and a thread holding no row feeds the neutral 0 into every item-count
prefix scan (projectors and accumulator).  However, in the row projector's
byte-reservation scan a no-row thread does not contribute 0: `required` is
computed unconditionally (`cuda_gpuscan.h:216`), so it contributes
`MAXALIGN(offsetof(kern_tupitem, htup))`. -/
theorem C7_collective_participation :
    (∀ (src : kern_data_store_src) (qual_eval : ℕ → Bool × ℕ) (gid : ℕ),
        src.nitems ≤ gid → gpuscan_thread_tupitem src qual_eval gid = none) ∧
    (proj_binary none = 0 ∧ wb_binary 0 = 0) ∧
    (row_required none = MAXALIGN kern_tupitem_htup_offset ∧ row_required none ≠ 0) ∧
    (∀ (src : kern_data_store_src) (qual_eval : ℕ → Bool × ℕ)
        (grouping : List (List ℕ)) (e0 : ℕ) (kr : kern_resultbuf) (d : RowDst),
        (gpuscan_qual src qual_eval grouping e0 kr (KdsDst.row d)).dst
          = KdsDst.row (runRow
              (grouping.map fun g => g.map (gpuscan_thread_tupitem src qual_eval)) d).1) ∧
    (∀ (src : kern_data_store_src) (qual_eval : ℕ → Bool × ℕ)
        (grouping : List (List ℕ)) (e0 : ℕ) (kr : kern_resultbuf) (d : SlotDst),
        (gpuscan_qual src qual_eval grouping e0 kr (KdsDst.slot d)).dst
          = KdsDst.slot (runSlot
              (grouping.map fun g => g.map (gpuscan_thread_tupitem src qual_eval)) d).1) := by
  refine ⟨?_, ⟨rfl, rfl⟩, ⟨rfl, by decide⟩, fun _ _ _ _ _ _ => rfl, fun _ _ _ _ _ _ => rfl⟩
  intro src qual_eval gid h
  unfold gpuscan_thread_tupitem
  rw [if_neg (by omega)]

/-- Witness for C7: an out-of-range thread of a one-row store holds no
row. -/
theorem C7_collective_participation_witness :
    (⟨1, fun _ => ⟨0, []⟩⟩ : kern_data_store_src).nitems ≤ 5 ∧
    gpuscan_thread_tupitem ⟨1, fun _ => ⟨0, []⟩⟩ (fun _ => (true, 0)) 5 = none :=
  ⟨by decide,
   C7_collective_participation.1 ⟨1, fun _ => ⟨0, []⟩⟩ (fun _ => (true, 0)) 5 (by decide)⟩

/-- C7 as stated is false: a thread holding no row does not feed the neutral
value 0 into the row projector's byte-reservation scan — it feeds
`MAXALIGN(offsetof(kern_tupitem, htup)) = 8`, which materially lands in the
destination's `usage` counter. -/
theorem C7_counterexample :
    row_required none = 8 ∧ ¬(row_required none = 0) ∧
    (gpuscan_projection_row [none] (freshRow 0 64 4)).1.usage = 8 := by
  refine ⟨by decide, by decide, rfl⟩

/-! ### C8: error demotion and the worst-error cell -/

theorem foldl_writeback_ge (l : List ℕ) :
    ∀ a : ℕ, a ≤ l.foldl kern_writeback_error_status a ∧
      ∀ e ∈ l, e ≤ l.foldl kern_writeback_error_status a := by
  induction l with
  | nil =>
    intro a
    exact ⟨le_refl a, by simp⟩
  | cons x l ih =>
    intro a
    have h := ih (kern_writeback_error_status a x)
    have hax : a ≤ kern_writeback_error_status a x := Nat.le_max_left a x
    have hxx : x ≤ kern_writeback_error_status a x := Nat.le_max_right a x
    refine ⟨le_trans hax h.1, ?_⟩
    intro e he
    rcases List.mem_cons.mp he with rfl | he
    · exact le_trans hxx h.1
    · exact h.2 e he

theorem foldl_writeback_mem (l : List ℕ) :
    ∀ a : ℕ, l.foldl kern_writeback_error_status a = a ∨
      l.foldl kern_writeback_error_status a ∈ l := by
  induction l with
  | nil =>
    intro a
    exact Or.inl rfl
  | cons x l ih =>
    intro a
    rcases ih (kern_writeback_error_status a x) with h | h
    · rcases max_choice a x with hm | hm
      · left
        rw [List.foldl_cons, h]
        exact hm
      · right
        rw [List.foldl_cons, h, show kern_writeback_error_status a x = x from hm]
        exact List.mem_cons_self _ _
    · right
      rw [List.foldl_cons]
      exact List.mem_cons_of_mem _ h

/-- C8: a predicate-internal error on an in-range row demotes the row to
"no row" (it enters the projector as `NULL` and reaches no output) while the
error code stays recorded in the thread's context; the invocation (a total
function) runs to completion, and the caller-visible cell ends as the worst
thread error: an upper bound on every thread's code, and equal to some
thread's code unless every thread succeeded. -/
theorem C8_error_demotion_and_worst
    (src : kern_data_store_src) (qual_eval : ℕ → Bool × ℕ)
    (grouping : List (List ℕ)) (kr : kern_resultbuf) (dst : KdsDst) (gid : ℕ)
    (hin : gid < src.nitems) (herr : (qual_eval gid).2 ≠ StromError_Success) :
    gpuscan_thread_tupitem src qual_eval gid = none ∧
    gpuscan_thread_errcode src qual_eval gid = (qual_eval gid).2 ∧
    (∀ e ∈ invocationErrList src qual_eval grouping dst,
        e ≤ (gpuscan_qual src qual_eval grouping StromError_Success kr dst).errcode) ∧
    ((gpuscan_qual src qual_eval grouping StromError_Success kr dst).errcode
        = StromError_Success ∨
     (gpuscan_qual src qual_eval grouping StromError_Success kr dst).errcode
        ∈ invocationErrList src qual_eval grouping dst) := by
  have hcell : (gpuscan_qual src qual_eval grouping StromError_Success kr dst).errcode
      = (invocationErrList src qual_eval grouping dst).foldl
          kern_writeback_error_status StromError_Success := by
    cases dst <;> rfl
  refine ⟨?_, ?_, ?_, ?_⟩
  · unfold gpuscan_thread_tupitem
    rw [if_pos hin]
    cases hv : (qual_eval gid).1
    · simp
    · simp [herr]
  · unfold gpuscan_thread_errcode
    rw [if_pos hin]
  · intro e he
    rw [hcell]
    exact (foldl_writeback_ge _ _).2 e he
  · rw [hcell]
    exact foldl_writeback_mem _ _

/-- Witness for C8: one in-range row whose predicate evaluation records
error code 7. -/
theorem C8_error_demotion_and_worst_witness :
    (0 < (⟨1, fun _ => ⟨0, []⟩⟩ : kern_data_store_src).nitems) ∧
    (((fun _ : ℕ => (true, 7)) 0).2 ≠ StromError_Success) ∧
    (gpuscan_thread_tupitem ⟨1, fun _ => ⟨0, []⟩⟩ (fun _ => (true, 7)) 0 = none ∧
     gpuscan_thread_errcode ⟨1, fun _ => ⟨0, []⟩⟩ (fun _ => (true, 7)) 0
        = ((fun _ : ℕ => (true, 7)) 0).2 ∧
     (∀ e ∈ invocationErrList ⟨1, fun _ => ⟨0, []⟩⟩ (fun _ => (true, 7)) [[0]]
          (KdsDst.slot (freshSlot 4 2)),
        e ≤ (gpuscan_qual ⟨1, fun _ => ⟨0, []⟩⟩ (fun _ => (true, 7)) [[0]]
              StromError_Success (wb_fresh 4) (KdsDst.slot (freshSlot 4 2))).errcode) ∧
     ((gpuscan_qual ⟨1, fun _ => ⟨0, []⟩⟩ (fun _ => (true, 7)) [[0]]
          StromError_Success (wb_fresh 4) (KdsDst.slot (freshSlot 4 2))).errcode
        = StromError_Success ∨
      (gpuscan_qual ⟨1, fun _ => ⟨0, []⟩⟩ (fun _ => (true, 7)) [[0]]
          StromError_Success (wb_fresh 4) (KdsDst.slot (freshSlot 4 2))).errcode
        ∈ invocationErrList ⟨1, fun _ => ⟨0, []⟩⟩ (fun _ => (true, 7)) [[0]]
            (KdsDst.slot (freshSlot 4 2)))) :=
  ⟨by decide, by decide,
   C8_error_demotion_and_worst ⟨1, fun _ => ⟨0, []⟩⟩ (fun _ => (true, 7)) [[0]]
     (wb_fresh 4) (KdsDst.slot (freshSlot 4 2)) 0 (by decide) (by decide)⟩

end GpuScan
